import Mathlib

/-!
Verification development for the ztractor metadata-extraction engine.

The definitions below are a shallow embedding of the repository's core
modules:

* `src/src/translator-loader.ts` (descriptor parsing, URL matching,
  candidate resolution),
* `src/packages/core/src/index.ts` (`extractMetadata` orchestration),
* `src/src/executor.ts` and `src/packages/core/src/executor.ts`
  (`executeDetectWeb`, `executeDoWeb`, the legacy `doGet`/`doPost`
  wrappers),
* `src/packages/core/src/translator-sandbox.ts` (`resolveUrl`, the
  `request*` helpers, `processDocuments`),
* `src/packages/core/src/item.ts` (`Item.complete`, `Item.toJSON`),
* the linkedom/xmldom XPath correlation bridge
  (`installXPathSupport`, `findMatchingLinkedomNode`, `getNodePath`).

JavaScript strings are modelled as `String` (worked on via `String.data`),
JS numbers occurring in the embedded code as `Int`, exceptions as
`Except`/`Option`, and the `RegExp` and `JSON` platform services as
executable models of the subset of their behaviour the repository
exercises.  Wall-clock values (the access date) are passed in as an
explicit parameter.
-/

/-! ## Basic character/string helpers (JS semantics) -/

/-- An opening curly brace character. -/
def obrace : Char := Char.ofNat 123

/-- A closing curly brace character. -/
def cbrace : Char := Char.ofNat 125

/-- Lowercase a character, as JS `toLowerCase` does for ASCII. -/
def lowerChar (c : Char) : Char := c.toLower

/-- Model of JS `String.prototype.toLowerCase` (ASCII subset). -/
def lowerStr (s : String) : String := ⟨s.data.map lowerChar⟩

/-- Whether `p` is a prefix of `c` (character-list version). -/
def startsWithL : List Char → List Char → Bool
  | [], _ => true
  | _ :: _, [] => false
  | p :: ps, c :: cs => p == c && startsWithL ps cs

/-- Model of JS `String.prototype.startsWith`. -/
def jsStartsWith (s pre : String) : Bool := startsWithL pre.data s.data

/-- Model of the JS regex class `\s` (common whitespace subset). -/
def isJsWs (c : Char) : Bool :=
  c == ' ' || c == '\t' || c == '\n' || c == '\r' ||
    c == Char.ofNat 11 || c == Char.ofNat 12

/-- JS truthiness of a possibly-absent string (`undefined`/`null`/`""` are
falsy). -/
def jsTruthyStr : Option String → Bool
  | none => false
  | some s => !(s == "")

/-! ## Model of the platform `RegExp` service

`new RegExp(pattern)` and `.test(url)` are platform functions, not
repository code; the repository relies on two facts about them: compiling
an ill-formed pattern throws, and `.test` searches for a match anywhere in
the string.  The model below implements a subset of the JS regex syntax
(literals, `.`, `|`, `*`, `+`, `?`, groups, character classes with ranges,
common escapes, a leading `^` / trailing `$` anchor) with derivative-based
matching; everything outside the subset is rejected at compile time. -/

/-- Regular-expression abstract syntax (after anchor stripping). -/
inductive Reg where
  | emp
  | eps
  | anyc
  | chr (c : Char)
  | cls (neg : Bool) (ranges : List (Char × Char))
  | alt (r s : Reg)
  | cat (r s : Reg)
  | star (r : Reg)

/-- Does the class (with polarity `neg`) match character `c`? -/
def clsMatch (neg : Bool) (ranges : List (Char × Char)) (c : Char) : Bool :=
  let m := ranges.any (fun p => decide (p.1 ≤ c) && decide (c ≤ p.2))
  if neg then !m else m

/-- Does the regex accept the empty string? -/
def Reg.nullable : Reg → Bool
  | .emp => false
  | .eps => true
  | .anyc => false
  | .chr _ => false
  | .cls _ _ => false
  | .alt r s => r.nullable || s.nullable
  | .cat r s => r.nullable && s.nullable
  | .star _ => true

/-- Brzozowski derivative of a regex by a character. -/
def Reg.deriv : Reg → Char → Reg
  | .emp, _ => .emp
  | .eps, _ => .emp
  | .anyc, _ => .eps
  | .chr d, c => if d == c then .eps else .emp
  | .cls neg rs, c => if clsMatch neg rs c then .eps else .emp
  | .alt r s, c => .alt (r.deriv c) (s.deriv c)
  | .cat r s, c =>
      if r.nullable then .alt (.cat (r.deriv c) s) (s.deriv c)
      else .cat (r.deriv c) s
  | .star r, c => .cat (r.deriv c) (.star r)

/-- Character classes produced by shorthand escapes. -/
def escClassRanges (c : Char) : Option (Bool × List (Char × Char)) :=
  if c == 'd' then some (false, [('0', '9')])
  else if c == 'D' then some (true, [('0', '9')])
  else if c == 'w' then
    some (false, [('a', 'z'), ('A', 'Z'), ('0', '9'), ('_', '_')])
  else if c == 'W' then
    some (true, [('a', 'z'), ('A', 'Z'), ('0', '9'), ('_', '_')])
  else if c == 's' then
    some (false, [(' ', ' '), ('\t', '\t'), ('\n', '\n'), ('\r', '\r')])
  else if c == 'S' then
    some (true, [(' ', ' '), ('\t', '\t'), ('\n', '\n'), ('\r', '\r')])
  else none

/-- Parse the interior of a character class, after `[` (and after the
optional `^`).  Returns the ranges and the input after the closing `]`;
`none` models the `SyntaxError` thrown on an unterminated class. -/
def parseClassItems : Nat → List Char → List (Char × Char) →
    Option (List (Char × Char) × List Char)
  | 0, _, _ => none
  | _, [], _ => none
  | fuel + 1, c :: rest, acc =>
    if c == ']' then some (acc.reverse, rest)
    else if c == '\\' then
      match rest with
      | [] => none
      | e :: rest2 =>
        match escClassRanges e with
        | some (false, rs) => parseClassItems fuel rest2 (rs.reverse ++ acc)
        | some (true, _) => none
        | none => parseClassItems fuel rest2 ((e, e) :: acc)
    else
      match rest with
      | '-' :: d :: rest2 =>
        if d == ']' then
          parseClassItems fuel (d :: rest2) (('-', '-') :: (c, c) :: acc)
        else parseClassItems fuel rest2 ((c, d) :: acc)
      | _ => parseClassItems fuel rest ((c, c) :: acc)

/-- Parse a character class after the opening `[`. -/
def parseClass (cs : List Char) : Option (Reg × List Char) :=
  match cs with
  | '^' :: rest =>
    match parseClassItems (rest.length + 1) rest [] with
    | some (rs, rest2) => some (.cls true rs, rest2)
    | none => none
  | _ =>
    match parseClassItems (cs.length + 1) cs [] with
    | some (rs, rest2) => some (.cls false rs, rest2)
    | none => none

/-- Is this character a postfix quantifier? -/
def isQuant (c : Char) : Bool := c == '*' || c == '+' || c == '?'

mutual

/-- Parse an alternation (`a|b|c`). -/
def parseAltR : Nat → List Char → Option (Reg × List Char)
  | 0, _ => none
  | fuel + 1, cs =>
    match parseSeqR fuel cs with
    | none => none
    | some (r, rest) =>
      match rest with
      | '|' :: more =>
        match parseAltR fuel more with
        | none => none
        | some (s, rest2) => some (.alt r s, rest2)
      | _ => some (r, rest)

/-- Parse a concatenation of quantified atoms. -/
def parseSeqR : Nat → List Char → Option (Reg × List Char)
  | 0, _ => none
  | fuel + 1, cs =>
    match cs with
    | [] => some (.eps, [])
    | ')' :: _ => some (.eps, cs)
    | '|' :: _ => some (.eps, cs)
    | _ =>
      match parsePieceR fuel cs with
      | none => none
      | some (r, rest) =>
        match parseSeqR fuel rest with
        | none => none
        | some (s, rest2) => some (.cat r s, rest2)

/-- Parse one atom with an optional quantifier (and optional lazy `?`). -/
def parsePieceR : Nat → List Char → Option (Reg × List Char)
  | 0, _ => none
  | fuel + 1, cs =>
    match parseAtomR fuel cs with
    | none => none
    | some (r, rest) =>
      match rest with
      | q :: rest2 =>
        if isQuant q then
          let r2 : Reg :=
            if q == '*' then .star r
            else if q == '+' then .cat r (.star r)
            else .alt r .eps
          let rest3 := match rest2 with
            | '?' :: more => more
            | _ => rest2
          match rest3 with
          | q2 :: _ => if isQuant q2 then none else some (r2, rest3)
          | [] => some (r2, rest3)
        else some (r, rest)
      | [] => some (r, rest)

/-- Parse a single atom; `none` models a `SyntaxError` (for instance an
unterminated group or class, or a quantifier with nothing to repeat). -/
def parseAtomR : Nat → List Char → Option (Reg × List Char)
  | 0, _ => none
  | fuel + 1, cs =>
    match cs with
    | [] => none
    | '(' :: rest =>
      let body := match rest with
        | '?' :: ':' :: more => some more
        | '?' :: _ => none
        | _ => some rest
      match body with
      | none => none
      | some body2 =>
        match parseAltR fuel body2 with
        | none => none
        | some (r, rest2) =>
          match rest2 with
          | ')' :: more => some (r, more)
          | _ => none
    | '[' :: rest => parseClass rest
    | '\\' :: rest =>
      match rest with
      | [] => none
      | e :: rest2 =>
        match escClassRanges e with
        | some (neg, rs) => some (.cls neg rs, rest2)
        | none => if e == 'b' || e == 'B' then none else some (.chr e, rest2)
    | '.' :: rest => some (.anyc, rest)
    | c :: rest =>
      if isQuant c || c == ')' then none else some (.chr c, rest)

end

/-- A compiled regex: anchor flags plus the body. -/
structure JsRegex where
  anchStart : Bool
  anchEnd : Bool
  body : Reg

/-- Model of `new RegExp(pattern)`: `none` models the thrown
`SyntaxError` for an ill-formed pattern. -/
def compileRegex (pat : String) : Option JsRegex :=
  let cs0 := pat.data
  let aS := startsWithL ['^'] cs0
  let cs1 := if aS then cs0.tail else cs0
  let rev := cs1.reverse
  let aE := match rev with
    | '$' :: more =>
      match more with
      | '\\' :: _ => false
      | _ => true
    | _ => false
  let cs2 := if aE then (rev.tail).reverse else cs1
  match parseAltR (cs2.length * 4 + 8) cs2 with
  | some (r, []) => some ⟨aS, aE, r⟩
  | _ => none

/-- Does the regex match some prefix of `cs`? -/
def prefixNullable : Reg → List Char → Bool
  | r, [] => r.nullable
  | r, c :: rest => r.nullable || prefixNullable (r.deriv c) rest

/-- Does the regex match all of `cs`? -/
def endNullable : Reg → List Char → Bool
  | r, [] => r.nullable
  | r, c :: rest => endNullable (r.deriv c) rest

/-- Match attempt at one start position, respecting the end anchor. -/
def matchHere (aE : Bool) (r : Reg) (cs : List Char) : Bool :=
  if aE then endNullable r cs else prefixNullable r cs

/-- Search for a match at any start position. -/
def searchFrom (aE : Bool) (r : Reg) : List Char → Bool
  | [] => matchHere aE r []
  | c :: rest => matchHere aE r (c :: rest) || searchFrom aE r rest

/-- Model of `RegExp.prototype.test`. -/
def regexTest (jr : JsRegex) (s : String) : Bool :=
  if jr.anchStart then matchHere jr.anchEnd jr.body s.data
  else searchFrom jr.anchEnd jr.body s.data

/-! ## `src/src/translator-loader.ts`: descriptors and resolution -/

/-- The descriptor metadata fields used by resolution
(`TranslatorMetadata` in `src/src/types.ts`). -/
structure TranslatorMetadata where
  translatorID : String
  label : String
  target : String
  priority : Int

/-- A loaded translator: metadata plus source code. -/
structure Translator where
  metadata : TranslatorMetadata
  code : String

/-- `matchesTarget(url, targetPattern)`: compile the pattern and test the
URL; a pattern whose compilation throws is treated as not matching. -/
def matchesTarget (url : String) (targetPattern : String) : Bool :=
  match compileRegex targetPattern with
  | none => false
  | some jr => regexTest jr url

/-- `findMatchingTranslators(url, translators)`: filter the catalog to
matching targets, then stable-sort by priority descending (the embedding
uses the stable `mergeSort`, matching the ECMAScript guarantee that
`Array.prototype.sort` is stable). -/
def findMatchingTranslators (url : String) (translators : List Translator) :
    List Translator :=
  (translators.filter (fun t => matchesTarget url t.metadata.target)).mergeSort
    (fun a b => decide (b.metadata.priority ≤ a.metadata.priority))

/-- `getTranslatorById(translatorID, translators)`. -/
def getTranslatorById (translatorID : String) (translators : List Translator) :
    Option Translator :=
  translators.find? (fun t => t.metadata.translatorID == translatorID)

/-! ## Model of the platform `JSON.parse` service

`parseTranslatorMetadata` extracts the leading `\x7b...\x7d` group with the
regex `^\s*(\x7b[\s\S]*?\x7d)\s*\n` and feeds it to `JSON.parse`.  The JSON
model below covers objects, arrays, strings (with the common escapes),
integer numbers, booleans and null; fractional/exponent numbers and
`\u` escapes are outside the modelled subset and are rejected. -/

/-- JSON values. -/
inductive Jval where
  | jnull
  | jbool (b : Bool)
  | jnum (n : Int)
  | jstr (s : String)
  | jarr (vs : List Jval)
  | jobj (fields : List (String × Jval))

/-- JSON insignificant whitespace. -/
def isJsonWs (c : Char) : Bool :=
  c == ' ' || c == '\t' || c == '\n' || c == '\r'

/-- Drop leading JSON whitespace. -/
def skipJsonWs (cs : List Char) : List Char := cs.dropWhile isJsonWs

/-- Parse the body of a JSON string after the opening quote. -/
def parseJsonStr : List Char → List Char → Option (String × List Char)
  | [], _ => none
  | c :: rest, acc =>
    if c == '"' then some (⟨acc.reverse⟩, rest)
    else if c == '\\' then
      match rest with
      | [] => none
      | e :: rest2 =>
        if e == '"' then parseJsonStr rest2 ('"' :: acc)
        else if e == '\\' then parseJsonStr rest2 ('\\' :: acc)
        else if e == '/' then parseJsonStr rest2 ('/' :: acc)
        else if e == 'n' then parseJsonStr rest2 ('\n' :: acc)
        else if e == 't' then parseJsonStr rest2 ('\t' :: acc)
        else if e == 'r' then parseJsonStr rest2 ('\r' :: acc)
        else if e == 'b' then parseJsonStr rest2 (Char.ofNat 8 :: acc)
        else if e == 'f' then parseJsonStr rest2 (Char.ofNat 12 :: acc)
        else none
    else parseJsonStr rest (c :: acc)

/-- Parse a run of decimal digits. -/
def parseDigits : List Char → Nat → Nat → Option (Nat × List Char)
  | [], acc, n => if n = 0 then none else some (acc, [])
  | c :: rest, acc, n =>
    if c.isDigit then parseDigits rest (acc * 10 + (c.toNat - 48)) (n + 1)
    else if n = 0 then none else some (acc, c :: rest)

/-- Parse a JSON number (integer subset; a fraction or exponent is
rejected as outside the modelled subset). -/
def parseJsonNum (cs : List Char) : Option (Int × List Char) :=
  let (neg, cs2) := match cs with
    | '-' :: rest => (true, rest)
    | _ => (false, cs)
  match parseDigits cs2 0 0 with
  | none => none
  | some (n, rest) =>
    match rest with
    | '.' :: _ => none
    | 'e' :: _ => none
    | 'E' :: _ => none
    | _ => some (if neg then -(n : Int) else (n : Int), rest)

mutual

/-- Parse one JSON value (fuel-based recursive descent). -/
def parseJval : Nat → List Char → Option (Jval × List Char)
  | 0, _ => none
  | fuel + 1, cs =>
    match skipJsonWs cs with
    | [] => none
    | c :: rest =>
      if c == '"' then
        match parseJsonStr rest [] with
        | none => none
        | some (s, rest2) => some (.jstr s, rest2)
      else if c == obrace then
        match skipJsonWs rest with
        | d :: rest2 =>
          if d == cbrace then some (.jobj [], rest2)
          else parseJsonMembers fuel (d :: rest2) []
        | [] => none
      else if c == '[' then
        match skipJsonWs rest with
        | d :: rest2 =>
          if d == ']' then some (.jarr [], rest2)
          else parseJsonElems fuel (d :: rest2) []
        | [] => none
      else if startsWithL ['t', 'r', 'u', 'e'] (c :: rest) then
        some (.jbool true, (c :: rest).drop 4)
      else if startsWithL ['f', 'a', 'l', 's', 'e'] (c :: rest) then
        some (.jbool false, (c :: rest).drop 5)
      else if startsWithL ['n', 'u', 'l', 'l'] (c :: rest) then
        some (.jnull, (c :: rest).drop 4)
      else
        match parseJsonNum (c :: rest) with
        | none => none
        | some (n, rest2) => some (.jnum n, rest2)

/-- Parse the members of a JSON object (after at least one is known to
be present). -/
def parseJsonMembers : Nat → List Char → List (String × Jval) →
    Option (Jval × List Char)
  | 0, _, _ => none
  | fuel + 1, cs, acc =>
    match skipJsonWs cs with
    | '"' :: rest =>
      match parseJsonStr rest [] with
      | none => none
      | some (key, rest2) =>
        match skipJsonWs rest2 with
        | ':' :: rest3 =>
          match parseJval fuel rest3 with
          | none => none
          | some (v, rest4) =>
            match skipJsonWs rest4 with
            | ',' :: rest5 => parseJsonMembers fuel rest5 ((key, v) :: acc)
            | d :: rest5 =>
              if d == cbrace then some (.jobj ((key, v) :: acc).reverse, rest5)
              else none
            | [] => none
        | _ => none
    | _ => none

/-- Parse the elements of a JSON array (after at least one is known to
be present). -/
def parseJsonElems : Nat → List Char → List Jval → Option (Jval × List Char)
  | 0, _, _ => none
  | fuel + 1, cs, acc =>
    match parseJval fuel cs with
    | none => none
    | some (v, rest) =>
      match skipJsonWs rest with
      | ',' :: rest2 => parseJsonElems fuel rest2 (v :: acc)
      | ']' :: rest2 => some (.jarr (v :: acc).reverse, rest2)
      | _ => none

end

/-- Model of `JSON.parse`: `none` models the thrown `SyntaxError`. -/
def jsonParse (cs : List Char) : Option Jval :=
  match parseJval (cs.length * 2 + 8) cs with
  | none => none
  | some (v, rest) => if skipJsonWs rest = [] then some v else none

/-- Property lookup on a parsed JSON value (`undefined` when the value is
not an object or the key is absent; later duplicate keys win, as in
`JSON.parse`). -/
def jlookup (v : Jval) (key : String) : Option Jval :=
  match v with
  | .jobj fields => fields.foldl
      (fun acc kv => if kv.1 == key then some kv.2 else acc) none
  | _ => none

/-- JS truthiness of a possibly-absent JSON value. -/
def jsTruthyJval : Option Jval → Bool
  | none => false
  | some .jnull => false
  | some (.jbool b) => b
  | some (.jnum n) => !(n == 0)
  | some (.jstr s) => !(s == "")
  | some (.jarr _) => true
  | some (.jobj _) => true

/-! ## Header extraction: the regex `^\s*(\x7b[\s\S]*?\x7d)\s*\n` -/

/-- Does the remainder match `\s*\n` at its start, i.e. is there a run of
whitespace whose last character is a newline? -/
def followedByWsNl : List Char → Bool
  | [] => false
  | c :: rest => if c == '\n' then true else if isJsWs c then followedByWsNl rest else false

/-- Lazy search for the earliest closing brace that is followed by
`\s*\n`, accumulating the group seen so far (reversed, without the final
brace). -/
def findHeaderGroup : List Char → List Char → Option (List Char × List Char)
  | _, [] => none
  | acc, c :: rest =>
    if c == cbrace && followedByWsNl rest then
      some ((acc.reverse ++ [c]), rest)
    else findHeaderGroup (c :: acc) rest

/-- Model of `code.match(/^\s*(\x7b[\s\S]*?\x7d)\s*\n/)`, returning the
captured group (with its braces) and the input remaining after it. -/
def extractHeader (cs : List Char) : Option (List Char × List Char) :=
  match cs.dropWhile isJsWs with
  | [] => none
  | c :: rest =>
    if c == obrace then
      match findHeaderGroup [c] rest with
      | none => none
      | some (grp, rest2) => some (grp, rest2)
    else none

/-- The required-field validation performed on the parsed header:
`!metadata.translatorID || !metadata.label || !metadata.target ||
metadata.translatorType === undefined` fails the parse. -/
def validateMetadata (v : Option Jval) : Option Jval :=
  match v with
  | none => none
  | some m =>
    if jsTruthyJval (jlookup m "translatorID") &&
        jsTruthyJval (jlookup m "label") &&
        jsTruthyJval (jlookup m "target") &&
        !(jlookup m "translatorType").isNone then
      some m
    else none

/-- `parseTranslatorMetadata(code)`: extract the header group, parse it
as JSON, and validate required fields; any failure yields `none` (the
source wraps the body in try/catch and returns `null`). -/
def parseTranslatorMetadata (code : String) : Option Jval :=
  match extractHeader code.data with
  | none => none
  | some (grp, _) => validateMetadata (jsonParse grp)

/-! ## `src/packages/core/src/item.ts`: the `Item` record builder

Scalar metadata fields are `Option String` (`none` models `undefined`);
the collection fields are lists.  `_onComplete` is not part of the state:
the executor always installs a callback, and the firing condition is
modelled by `Item.completeFires`.  The current calendar date produced by
`new Date().toISOString().split('T')[0]` is passed in as the `today`
parameter. -/

/-- A creator entry. -/
structure Creator where
  firstName : Option String := none
  lastName : Option String := none
  creatorType : Option String := none
deriving DecidableEq

/-- The mutable extracted-record builder (class `Item`). -/
structure Item where
  itemType : String
  title : Option String := none
  creators : List Creator := []
  abstractNote : Option String := none
  publicationTitle : Option String := none
  volume : Option String := none
  issue : Option String := none
  pages : Option String := none
  date : Option String := none
  series : Option String := none
  seriesTitle : Option String := none
  seriesText : Option String := none
  journalAbbreviation : Option String := none
  language : Option String := none
  DOI : Option String := none
  ISBN : Option String := none
  ISSN : Option String := none
  url : Option String := none
  accessDate : Option String := none
  archive : Option String := none
  archiveLocation : Option String := none
  libraryCatalog : Option String := none
  callNumber : Option String := none
  rights : Option String := none
  extra : Option String := none
  tags : List String := []
  collections : List String := []
  relations : List (String × String) := []
  notes : List String := []
  attachments : List String := []
  publisher : Option String := none
  place : Option String := none
  edition : Option String := none
  numPages : Option String := none
  studio : Option String := none
  runningTime : Option String := none
  medium : Option String := none
  university : Option String := none
  thesisType : Option String := none
  court : Option String := none
  reporter : Option String := none
  caseNumber : Option String := none
  completed : Bool := false
deriving DecidableEq

/-- The plain-data snapshot handed to the completion callback
(`ZoteroItem`): the same fields without the private completion flag. -/
structure ItemData where
  itemType : String
  title : Option String := none
  creators : List Creator := []
  abstractNote : Option String := none
  publicationTitle : Option String := none
  volume : Option String := none
  issue : Option String := none
  pages : Option String := none
  date : Option String := none
  series : Option String := none
  seriesTitle : Option String := none
  seriesText : Option String := none
  journalAbbreviation : Option String := none
  language : Option String := none
  DOI : Option String := none
  ISBN : Option String := none
  ISSN : Option String := none
  url : Option String := none
  accessDate : Option String := none
  archive : Option String := none
  archiveLocation : Option String := none
  libraryCatalog : Option String := none
  callNumber : Option String := none
  rights : Option String := none
  extra : Option String := none
  tags : List String := []
  collections : List String := []
  relations : List (String × String) := []
  notes : List String := []
  attachments : List String := []
  publisher : Option String := none
  place : Option String := none
  edition : Option String := none
  numPages : Option String := none
  studio : Option String := none
  runningTime : Option String := none
  medium : Option String := none
  university : Option String := none
  thesisType : Option String := none
  court : Option String := none
  reporter : Option String := none
  caseNumber : Option String := none
deriving DecidableEq

/-- `Item.prototype.toJSON`: copy every defined field except the private
`completed`/`_onComplete` members (`Option` already models definedness). -/
def Item.toJSON (it : Item) : ItemData :=
  { itemType := it.itemType, title := it.title, creators := it.creators,
    abstractNote := it.abstractNote, publicationTitle := it.publicationTitle,
    volume := it.volume, issue := it.issue, pages := it.pages,
    date := it.date, series := it.series, seriesTitle := it.seriesTitle,
    seriesText := it.seriesText,
    journalAbbreviation := it.journalAbbreviation, language := it.language,
    DOI := it.DOI, ISBN := it.ISBN, ISSN := it.ISSN, url := it.url,
    accessDate := it.accessDate, archive := it.archive,
    archiveLocation := it.archiveLocation,
    libraryCatalog := it.libraryCatalog, callNumber := it.callNumber,
    rights := it.rights, extra := it.extra, tags := it.tags,
    collections := it.collections, relations := it.relations,
    notes := it.notes, attachments := it.attachments,
    publisher := it.publisher, place := it.place, edition := it.edition,
    numPages := it.numPages, studio := it.studio,
    runningTime := it.runningTime, medium := it.medium,
    university := it.university, thesisType := it.thesisType,
    court := it.court, reporter := it.reporter,
    caseNumber := it.caseNumber }

/-- `Item.prototype.complete` (state part): a no-op when already
completed; otherwise set the flag and, when the item has a truthy `url`
but no truthy `accessDate`, set `accessDate` to today's date. -/
def Item.complete (it : Item) (today : String) : Item :=
  if it.completed then it
  else
    let it1 := { it with completed := true }
    if !(jsTruthyStr it.accessDate) && jsTruthyStr it.url then
      { it1 with accessDate := some today }
    else it1

/-- Whether a call to `complete` fires the installed completion callback:
only when the item was not already completed. -/
def Item.completeFires (it : Item) : Bool := !it.completed

/-! ## Execution engine: `executeDetectWeb`, `executeDoWeb`,
`extractMetadata`

A candidate bundles a translator's label and target pattern with the
behaviour of its `detectWeb`/`doWeb` entry points at the run's fixed
`(document, url)` pair: either a thrown fault (`Except.error`) or the
returned value.  `detectWeb` returns an item-type string or a falsy value
(`false`/`null`/`undefined`, modelled as `none`). -/

/-- One resolved translator candidate together with the behaviour of its
entry points for the current run. -/
structure Candidate where
  label : String
  target : String
  detectBehavior : Except String (Option String)
  doWebBehavior : Except String (List ItemData)

/-- `executeDetectWeb`: the whole body is wrapped in try/catch, a thrown
fault returns `null`. -/
def executeDetectWeb (c : Candidate) : Option String :=
  match c.detectBehavior with
  | .error _ => none
  | .ok v => v

/-- `executeDoWeb`: a thrown fault is caught and resolves to the empty
item list instead of rejecting. -/
def executeDoWeb (c : Candidate) : List ItemData :=
  match c.doWebBehavior with
  | .error _ => []
  | .ok items => items

/-- The failure message when no translator's pattern matches the URL. -/
def noMatchError : String := "No matching translator found for this URL"

/-- The failure message when every matching candidate probed negative or
extracted nothing. -/
def noExtractionError : String :=
  "No translator could extract metadata from this page"

/-- The outcome of `extractMetadata`. -/
inductive ExtractResult where
  | success (translator : String) (items : List ItemData)
  | failure (error : String)
deriving DecidableEq

/-- The candidate loop of `extractMetadata`: probe each candidate in
order; on a truthy probe run extraction; the first candidate with at
least one item wins, otherwise continue. -/
def tryTranslators : List Candidate → ExtractResult
  | [] => .failure noExtractionError
  | c :: rest =>
    if jsTruthyStr (executeDetectWeb c) then
      let items := executeDoWeb c
      if items.length > 0 then .success c.label items
      else tryTranslators rest
    else tryTranslators rest

/-- `findTranslatorsForUrl` (registry module): filter the registry to
entries whose target pattern matches the URL; an invalid pattern is
treated as non-matching. -/
def findTranslatorsForUrl (url : String) (registry : List Candidate) :
    List Candidate :=
  registry.filter (fun c => matchesTarget url c.target)

/-- `extractMetadata` (core `index.ts`), for a run with the page HTML
already available: resolve matching candidates, fail with the distinct
no-match error when there are none, and otherwise run the candidate
loop. -/
def extractMetadata (url : String) (registry : List Candidate) :
    ExtractResult :=
  let matching := findTranslatorsForUrl url registry
  if matching.length = 0 then .failure noMatchError
  else tryTranslators matching

/-- A candidate that does not win: its probe is falsy or its extraction
yields no items. -/
def candidateFails (c : Candidate) : Prop :=
  jsTruthyStr (executeDetectWeb c) = false ∨ executeDoWeb c = []

/-! ## `translator-sandbox.ts`: URL resolution and `processDocuments` -/

/-- Characters allowed in a URL scheme (model). -/
def isSchemeChar (c : Char) : Bool := c.isAlpha

/-- Split an absolute URL after its `scheme://` part; `none` when the
string does not start with `letters://`. -/
def splitScheme (cs : List Char) : Option (List Char × List Char) :=
  let scheme := cs.takeWhile isSchemeChar
  let rest := cs.drop scheme.length
  if scheme.isEmpty then none
  else if startsWithL [':', '/', '/'] rest then some (scheme, rest.drop 3)
  else none

/-- Model of `new URL(base).origin` for an absolute http(s)-style URL:
`scheme://host` (everything before the first path slash). -/
def urlOrigin (base : String) : String :=
  match splitScheme base.data with
  | none => base
  | some (scheme, rest) =>
    ⟨scheme ++ [':', '/', '/'] ++ rest.takeWhile (fun c => !(c == '/'))⟩

/-- Model of the directory part of an absolute URL: everything up to and
including the last slash of the path; when the URL has no path slash the
implicit root `/` is appended. -/
def urlDirname (base : String) : String :=
  match splitScheme base.data with
  | none => base
  | some (scheme, rest) =>
    if rest.any (fun c => c == '/') then
      ⟨scheme ++ [':', '/', '/'] ++
        ((rest.reverse.dropWhile (fun c => !(c == '/'))).reverse)⟩
    else base ++ "/"

/-- Model of `new URL(requestUrl, pageUrl).href` for the two shapes the
embedded code feeds it (a root-relative `/...` URL and a `./...` URL);
dot-segment normalisation and query handling are outside the modelled
subset. -/
def newURLHref (requestUrl pageUrl : String) : String :=
  if jsStartsWith requestUrl "/" then urlOrigin pageUrl ++ requestUrl
  else if jsStartsWith requestUrl "./" then
    urlDirname pageUrl ++ ⟨requestUrl.data.drop 2⟩
  else requestUrl

/-- `resolveUrl` from `createSandboxRequestFunctions`: only URLs starting
with `/` or `./` are resolved against the page URL; everything else is
returned unchanged. -/
def resolveUrl (requestUrl pageUrl : String) : String :=
  if jsStartsWith requestUrl "/" || jsStartsWith requestUrl "./" then
    newURLHref requestUrl pageUrl
  else requestUrl

/-- Is the URL absolute (`scheme://...`) in the modelled subset? -/
def isAbsoluteUrl (u : String) : Bool := (splitScheme u.data).isSome

/-- Standard resolution of a possibly-relative URL against the page URL,
written from the specification's words ("resolve a possibly-relative URL
against the page URL before any network access"): an absolute URL stays,
a root-relative URL is joined to the page origin, and any other relative
URL is joined to the page directory.  This is the specification-side
definition compared against `resolveUrl`. -/
def specResolveUrl (requestUrl pageUrl : String) : String :=
  if isAbsoluteUrl requestUrl then requestUrl
  else if jsStartsWith requestUrl "/" then urlOrigin pageUrl ++ requestUrl
  else if jsStartsWith requestUrl "./" then
    urlDirname pageUrl ++ ⟨requestUrl.data.drop 2⟩
  else urlDirname pageUrl ++ requestUrl

/-- The URL `request()` passes to `fetch`. -/
def requestFetchUrl (pageUrl requestUrl : String) : String :=
  resolveUrl requestUrl pageUrl

/-- The URL `requestText()` passes to `fetch`. -/
def requestTextFetchUrl (pageUrl requestUrl : String) : String :=
  resolveUrl requestUrl pageUrl

/-- The URL `requestJSON()` passes to `fetch`. -/
def requestJSONFetchUrl (pageUrl requestUrl : String) : String :=
  resolveUrl requestUrl pageUrl

/-- The URL `requestDocument()` passes to `fetch`. -/
def requestDocumentFetchUrl (pageUrl requestUrl : String) : String :=
  resolveUrl requestUrl pageUrl

/-- The URL the legacy `doGet` wrapper in `createSandbox` passes on:
the same `startsWith('/') || startsWith('./')` conditional, inlined. -/
def doGetFetchUrl (pageUrl requestUrl : String) : String :=
  if jsStartsWith requestUrl "/" || jsStartsWith requestUrl "./" then
    newURLHref requestUrl pageUrl
  else requestUrl

/-- The URL the legacy `doPost` wrapper in `createSandbox` passes on. -/
def doPostFetchUrl (pageUrl requestUrl : String) : String :=
  if jsStartsWith requestUrl "/" || jsStartsWith requestUrl "./" then
    newURLHref requestUrl pageUrl
  else requestUrl

/-! ## `processDocuments`: batch-document helper

The per-URL fetch+parse step and the visitor are modelled as oracles
(`Except.error` models a thrown fault).  The observable behaviour is the
event trace: one `visited` event per visitor invocation, and one
`completed` event per call to the `done` callback. -/

/-- Observable events of a `processDocuments` run. -/
inductive BatchEvent where
  | visited (url : String)
  | completed
deriving DecidableEq

/-- The try/catch body run for one URL: resolve, fetch+parse, then invoke
the visitor; either fault is swallowed, and the visitor runs exactly when
fetch+parse succeeded. -/
def processOneDocument (fetchParse : String → Except String String)
    (visitor : String → Except String Unit) (pageUrl docUrl : String) :
    List BatchEvent :=
  match fetchParse (resolveUrl docUrl pageUrl) with
  | .error _ => []
  | .ok _ =>
    match visitor (resolveUrl docUrl pageUrl) with
    | .error _ => [.visited (resolveUrl docUrl pageUrl)]
    | .ok _ => [.visited (resolveUrl docUrl pageUrl)]

/-- The sequential loop of `processDocuments` over the URL list. -/
def processDocumentsLoop (fetchParse : String → Except String String)
    (visitor : String → Except String Unit) (pageUrl : String) :
    List String → List BatchEvent
  | [] => []
  | u :: rest =>
    processOneDocument fetchParse visitor pageUrl u ++
      processDocumentsLoop fetchParse visitor pageUrl rest

/-- `processDocuments(urls, processor, done?)`: process each URL in order
(faults swallowed per item), then call `done` once when provided. -/
def processDocuments (fetchParse : String → Except String String)
    (visitor : String → Except String Unit) (pageUrl : String)
    (urls : List String) (hasDone : Bool) : List BatchEvent :=
  processDocumentsLoop fetchParse visitor pageUrl urls ++
    (if hasDone then [.completed] else [])

/-! ## The node-correlation bridge

The two independently parsed trees (linkedom and xmldom) are modelled by
one tree type.  A node of a tree is addressed by its position: the list
of `childNodes` indices from the root.  `nodeName` of an element is its
tag; of a text/comment node the `#`-name. -/

/-- A parsed DOM node (element with ordered child nodes, or a
text/comment-like leaf). -/
inductive NTree where
  | elem (tag : String) (children : List NTree)
  | textN (s : String)

/-- `nodeName` (tag for elements, `#text` for the leaf model). -/
def nodeName : NTree → String
  | .elem t _ => t
  | .textN _ => "#text"

/-- `childNodes`. -/
def childNodes : NTree → List NTree
  | .elem _ cs => cs
  | .textN _ => []

/-- Is the node an element? -/
def isElemNode : NTree → Bool
  | .elem _ _ => true
  | .textN _ => false

/-- `.children`: the element children only. -/
def elemChildren (t : NTree) : List NTree := (childNodes t).filter isElemNode

/-- The node at a position, if the position is valid. -/
def nodeAt : NTree → List Nat → Option NTree
  | t, [] => some t
  | t, i :: rest =>
    match (childNodes t)[i]? with
    | none => none
    | some c => nodeAt c rest

mutual

/-- All node positions of a tree in document (pre)order. -/
def allPositions : NTree → List (List Nat)
  | .textN _ => [[]]
  | .elem _ cs => [] :: allPositionsAux 0 cs

/-- Positions contributed by a child list starting at child index `i`. -/
def allPositionsAux : Nat → List NTree → List (List Nat)
  | _, [] => []
  | i, c :: rest =>
    (allPositions c).map (fun p => i :: p) ++ allPositionsAux (i + 1) rest

end

/-- Model of `xpathSelect("//tag", xmlDoc)`: the positions of every
element named `tag`, in document order. -/
def selectTag (root : NTree) (tag : String) : List (List Nat) :=
  (allPositions root).filter (fun pos =>
    match nodeAt root pos with
    | some (.elem t _) => t == tag
    | _ => false)

/-- One step of a `StructuralPath`: a tag name and the zero-based index
among same-tag-name siblings. -/
structure PathStep where
  tagName : String
  index : Nat
deriving DecidableEq

/-- The index of child `i` among the preceding siblings sharing its
`nodeName` (all of `childNodes` is scanned, exactly as `getNodePath`
iterates `parent.childNodes` comparing `nodeName` strictly). -/
def sameTagIndex (siblings : List NTree) (i : Nat) (tag : String) : Nat :=
  ((siblings.take i).filter (fun s => nodeName s == tag)).length

/-- The path steps from `t` down to the node at `pos` (excluding the step
for `t` itself); `none` for an invalid position. -/
def pathStepsFrom : NTree → List Nat → Option (List PathStep)
  | _, [] => some []
  | t, i :: rest =>
    match (childNodes t)[i]? with
    | none => none
    | some c =>
      match pathStepsFrom c rest with
      | none => none
      | some steps =>
        some (⟨nodeName c, sameTagIndex (childNodes t) i (nodeName c)⟩ :: steps)

/-- `getNodePath(node)`: walk parent links up to the document.  The
walk includes a step for the document element itself; its index among
same-named document-level siblings is 0 (the document has a single root
element in the modelled documents). -/
def getNodePath (root : NTree) (pos : List Nat) : Option (List PathStep) :=
  match pathStepsFrom root pos with
  | none => none
  | some steps => some (⟨nodeName root, 0⟩ :: steps)

/-- Does a child match the step's tag (case-insensitive comparison, as in
`child.nodeName?.toLowerCase() === step.tagName.toLowerCase()`)? -/
def matchesStep (st : PathStep) (c : NTree) : Bool :=
  lowerStr (nodeName c) == lowerStr st.tagName

/-- The inner loop of `findMatchingLinkedomNode` over the current node's
element children: count the matching children and select the one whose
running match index equals the step's recorded index; when the scan runs
out, keep `cur` (the current node) unchanged. -/
def scanChildren : List NTree → PathStep → Nat → NTree → NTree
  | [], _, _, cur => cur
  | c :: rest, st, matchIndex, cur =>
    if matchesStep st c then
      if matchIndex == st.index then c
      else scanChildren rest st (matchIndex + 1) cur
    else scanChildren rest st matchIndex cur

/-- One step of the re-walk: `none` models `return null` when the current
node has no `.children` (a non-element); otherwise the scan result. -/
def stepDown (cur : NTree) (st : PathStep) : Option NTree :=
  match cur with
  | .textN _ => none
  | .elem _ _ => some (scanChildren (elemChildren cur) st 0 cur)

/-- The loop of `findMatchingLinkedomNode` over the path steps, starting
from the primary document element. -/
def walkPath : NTree → List PathStep → Option NTree
  | cur, [] => some cur
  | cur, st :: rest =>
    match stepDown cur st with
    | none => none
    | some next => walkPath next rest

/-- `findMatchingLinkedomNode(linkedomDoc, xmlNode)`: compute the matched
node's structural path in the secondary tree and re-walk the primary
tree; the surrounding try/catch maps any failure to `null`. -/
def findMatchingLinkedomNode (linkedomDoc secondaryDoc : NTree)
    (pos : List Nat) : Option NTree :=
  match getNodePath secondaryDoc pos with
  | none => none
  | some path => walkPath linkedomDoc path

/-- The `document.evaluate` projection installed by `installXPathSupport`
for a `//tag` query: evaluate on the secondary tree, map every match
through `findMatchingLinkedomNode`, and keep the non-null results
(`.filter(Boolean)`). -/
def evaluateTagQuery (linkedomDoc secondaryDoc : NTree) (tag : String) :
    List NTree :=
  (selectTag secondaryDoc tag).filterMap
    (findMatchingLinkedomNode linkedomDoc secondaryDoc)

/-! ## Concrete instances used by witnesses and counterexamples -/

/-- A minimal extracted-record snapshot. -/
def sampleItem : ItemData := { itemType := "webpage" }

/-- A candidate whose target does not match the sample URL. -/
def candNoMatch : Candidate :=
  { label := "A", target := "nomatch", detectBehavior := .ok (some "webpage"),
    doWebBehavior := .ok [sampleItem] }

/-- A matching candidate whose probe returns a falsy value. -/
def candProbeNeg : Candidate :=
  { label := "B", target := "example", detectBehavior := .ok none,
    doWebBehavior := .ok [sampleItem] }

/-- A matching candidate that probes positive and extracts one record. -/
def candWins : Candidate :=
  { label := "C", target := "example", detectBehavior := .ok (some "webpage"),
    doWebBehavior := .ok [sampleItem] }

/-- A candidate whose probe throws. -/
def candProbeThrows : Candidate :=
  { label := "D", target := "example", detectBehavior := .error "probe boom",
    doWebBehavior := .ok [sampleItem] }

/-- A candidate whose extraction throws. -/
def candDoWebThrows : Candidate :=
  { label := "E", target := "example", detectBehavior := .ok (some "webpage"),
    doWebBehavior := .error "doWeb boom" }

/-- A translator header missing the `priority` key (all other required
keys present). -/
def hdrNoPriority : String :=
  "\x7b\"translatorID\":\"ab-1\",\"label\":\"Example\",\"target\":\"^https://example\",\"translatorType\":4\x7d\nfunction detectWeb() \x7b\x7d\n"

/-- The JSON value `parseTranslatorMetadata` produces for
`hdrNoPriority`. -/
def hdrNoPriorityVal : Jval :=
  .jobj [("translatorID", .jstr "ab-1"), ("label", .jstr "Example"),
    ("target", .jstr "^https://example"), ("translatorType", .jnum 4)]

/-- A `p` element holding one text child. -/
def pchild (s : String) : NTree := .elem "p" [.textN s]

/-- A document whose root holds `N` same-tag (`p`) siblings at one
nesting level. -/
def famDoc (ss : List String) : NTree := .elem "body" (ss.map pchild)

/-- The secondary (query) tree of the divergence scenario: a body with
two `p` children. -/
def secDiverge : NTree :=
  .elem "html" [.elem "body" [pchild "a", pchild "b"]]

/-- The primary tree of the divergence scenario: the second `p` has no
positional equivalent. -/
def primDiverge : NTree := .elem "html" [.elem "body" [pchild "a"]]

/-! # Theorems -/

/-! ## Shared helper lemmas -/

theorem completed_after_complete (it : Item) (t : String) :
    (Item.complete it t).completed = true := by
  unfold Item.complete
  split
  · assumption
  · split <;> rfl

/-- C9: `ExtractedRecord` finalization is idempotent: a second (or any
later) call to `complete` is a no-op on the record's state, and the
completion callback does not fire again (so it fires at most once per
record). -/
theorem item_complete_idempotent (it : Item) (t t2 : String) :
    Item.complete (Item.complete it t) t2 = Item.complete it t ∧
    Item.completeFires (Item.complete it t) = false := by
  have h := completed_after_complete it t
  constructor
  · generalize Item.complete it t = x at h ⊢
    unfold Item.complete
    rw [h]
    simp
  · simp [Item.completeFires, h]

/-- C10: on a not-yet-completed record, `complete` changes at most the
completion flag and `accessDate`; `accessDate` is set to today's date
exactly when the record has a truthy `url` and no truthy `accessDate`,
and is left unchanged otherwise; the snapshot passed to the completion
callback is the record's fields plus this possible `accessDate`. -/
theorem item_complete_frame (it : Item) (t : String)
    (hc : it.completed = false) :
    Item.complete it t =
      { it with completed := true,
                accessDate := (Item.complete it t).accessDate } ∧
    (jsTruthyStr it.accessDate = false → jsTruthyStr it.url = true →
      (Item.complete it t).accessDate = some t) ∧
    (jsTruthyStr it.accessDate = true →
      (Item.complete it t).accessDate = it.accessDate) ∧
    (jsTruthyStr it.url = false →
      (Item.complete it t).accessDate = it.accessDate) ∧
    Item.toJSON (Item.complete it t) =
      { Item.toJSON it with accessDate := (Item.complete it t).accessDate } := by
  unfold Item.complete
  rw [hc]
  simp only [Bool.false_eq_true, if_false]
  split
  · rename_i hcond
    simp only [Bool.and_eq_true, Bool.not_eq_true'] at hcond
    refine ⟨rfl, fun _ _ => rfl, fun h1 => ?_, fun h2 => ?_, rfl⟩
    · rw [hcond.1] at h1; cases h1
    · rw [hcond.2] at h2; cases h2
  · rename_i hcond
    exact ⟨rfl, fun h1 h2 => absurd (by rw [h1, h2]; rfl) hcond, fun _ => rfl,
      fun _ => rfl, rfl⟩

/-- C10 witness: a record with a url and no access date gets today's
date; a record with an existing access date keeps it. -/
theorem item_complete_frame_witness :
    (Item.complete { itemType := "webpage", url := some "https://x.y/" } "2026-10-11").accessDate = some "2026-10-11" ∧
    (Item.complete { itemType := "webpage", url := some "https://x.y/", accessDate := some "2024-01-01" } "2026-10-11").accessDate = some "2024-01-01" :=
  ⟨(item_complete_frame { itemType := "webpage", url := some "https://x.y/" } "2026-10-11" rfl).2.1 rfl rfl,
   (item_complete_frame { itemType := "webpage", url := some "https://x.y/", accessDate := some "2024-01-01" } "2026-10-11" rfl).2.2.1 rfl⟩

theorem filterMap_eq_map_of_some {α β : Type} (l : List α) (f : α → Option β)
    (g : α → β) (h : ∀ x ∈ l, f x = some (g x)) : l.filterMap f = l.map g := by
  induction l with
  | nil => rfl
  | cons a l ih =>
    rw [List.filterMap_cons, h a (List.mem_cons_self a l), List.map_cons,
      ih (fun x hx => h x (List.mem_cons_of_mem a hx))]

theorem processDocumentsLoop_eq_filterMap
    (fetchParse : String → Except String String)
    (visitor : String → Except String Unit) (pageUrl : String)
    (urls : List String) :
    processDocumentsLoop fetchParse visitor pageUrl urls =
      urls.filterMap (fun u =>
        match fetchParse (resolveUrl u pageUrl) with
        | .error _ => none
        | .ok _ => some (BatchEvent.visited (resolveUrl u pageUrl))) := by
  induction urls with
  | nil => rfl
  | cons u rest ih =>
    rw [processDocumentsLoop, List.filterMap_cons, ih]
    unfold processOneDocument
    cases fetchParse (resolveUrl u pageUrl) with
    | error e => rfl
    | ok d => cases visitor (resolveUrl u pageUrl) <;> rfl

/-- C8: `processDocuments` visits each successfully fetched URL once, in
order; per-item faults (in fetch/parse or in the visitor) are swallowed
and never abort the remaining URLs or change the trace; the completion
callback is signalled exactly once, after all URLs; an empty URL list
produces zero visits and one completion signal. -/
theorem processDocuments_spec (fetchParse : String → Except String String)
    (visitor visitor2 : String → Except String Unit) (pageUrl : String)
    (urls : List String) :
    processDocuments fetchParse visitor pageUrl [] true = [.completed] ∧
    (processDocuments fetchParse visitor pageUrl urls true).count
      BatchEvent.completed = 1 ∧
    processDocuments fetchParse visitor pageUrl urls true =
      (urls.filterMap (fun u =>
        match fetchParse (resolveUrl u pageUrl) with
        | .error _ => none
        | .ok _ => some (BatchEvent.visited (resolveUrl u pageUrl)))) ++
        [.completed] ∧
    processDocuments fetchParse visitor pageUrl urls true =
      processDocuments fetchParse visitor2 pageUrl urls true ∧
    ((∀ u ∈ urls, (fetchParse (resolveUrl u pageUrl)).isOk = true) →
      processDocuments fetchParse visitor pageUrl urls true =
        urls.map (fun u => BatchEvent.visited (resolveUrl u pageUrl)) ++
          [.completed]) := by
  have hloop := processDocumentsLoop_eq_filterMap fetchParse visitor pageUrl urls
  have hmain : processDocuments fetchParse visitor pageUrl urls true =
      (urls.filterMap (fun u =>
        match fetchParse (resolveUrl u pageUrl) with
        | .error _ => none
        | .ok _ => some (BatchEvent.visited (resolveUrl u pageUrl)))) ++
        [.completed] := by
    unfold processDocuments
    rw [hloop]
    rfl
  refine ⟨rfl, ?_, hmain, ?_, ?_⟩
  · rw [hmain, List.count_append]
    have hzero : (urls.filterMap (fun u =>
        match fetchParse (resolveUrl u pageUrl) with
        | .error _ => none
        | .ok _ => some (BatchEvent.visited (resolveUrl u pageUrl)))).count
        BatchEvent.completed = 0 := by
      rw [List.count_eq_zero]
      intro hmem
      rcases List.mem_filterMap.mp hmem with ⟨u, _, hu⟩
      cases h : fetchParse (resolveUrl u pageUrl) <;> rw [h] at hu <;> simp at hu
    rw [hzero]
    rfl
  · rw [hmain]
    unfold processDocuments
    rw [processDocumentsLoop_eq_filterMap fetchParse visitor2 pageUrl urls]
    rfl
  · intro hall
    rw [hmain]
    congr 1
    refine filterMap_eq_map_of_some urls _ _ (fun u hu => ?_)
    have := hall u hu
    cases h : fetchParse (resolveUrl u pageUrl)
    · rw [h] at this; simp [Except.isOk, Except.toBool] at this
    · rfl

/-- C8 witness: two URLs that fetch successfully are visited in order and
completion is signalled once. -/
theorem processDocuments_spec_witness :
    processDocuments (fun _ => .ok "html") (fun _ => .ok ()) "https://p/"
        ["https://a/", "https://b/"] true =
      [.visited "https://a/", .visited "https://b/", .completed] :=
  (processDocuments_spec (fun _ => .ok "html") (fun _ => .ok ())
      (fun _ => .ok ()) "https://p/" ["https://a/", "https://b/"]).2.2.2.2
    (fun _ _ => rfl)

theorem isAbsoluteUrl_false_of_startsWith_slash (u : String)
    (h : jsStartsWith u "/" = true) : isAbsoluteUrl u = false := by
  unfold jsStartsWith at h
  unfold isAbsoluteUrl splitScheme
  cases hu : u.data with
  | nil => rw [hu] at h; simp [startsWithL] at h
  | cons c rest =>
    rw [hu] at h
    simp only [startsWithL, Bool.and_eq_true, beq_iff_eq] at h
    rw [← h.1]
    rfl

theorem isAbsoluteUrl_false_of_startsWith_dotSlash (u : String)
    (h : jsStartsWith u "./" = true) : isAbsoluteUrl u = false := by
  unfold jsStartsWith at h
  unfold isAbsoluteUrl splitScheme
  cases hu : u.data with
  | nil => rw [hu] at h; simp [startsWithL] at h
  | cons c rest =>
    rw [hu] at h
    simp only [startsWithL, Bool.and_eq_true, beq_iff_eq] at h
    rw [← h.1]
    rfl

/-- C6 counterexample: the bare relative URL `page.html` is passed to
`fetch` unresolved, while standard resolution against the page URL would
produce an absolute URL; so not every relative URL is resolved before
network access. -/
theorem resolveUrl_counterexample :
    requestFetchUrl "https://example.com/dir/index.html" "page.html" =
      "page.html" ∧
    specResolveUrl "page.html" "https://example.com/dir/index.html" =
      "https://example.com/dir/page.html" ∧
    "page.html" ≠ "https://example.com/dir/page.html" :=
  ⟨rfl, by decide, by decide⟩

/-- C6 (amended): each networked helper (`request`, `requestText`,
`requestJSON`, `requestDocument`, and the legacy `doGet`/`doPost`)
fetches exactly `resolveUrl(requestUrl, pageUrl)`; a URL starting with
`/` or `./` is resolved by standard resolution against the page URL
before any network access, and every other request URL (bare relative
forms included) is fetched as given. -/
theorem resolveUrl_amended (u page : String) :
    requestFetchUrl page u = resolveUrl u page ∧
    requestTextFetchUrl page u = resolveUrl u page ∧
    requestJSONFetchUrl page u = resolveUrl u page ∧
    requestDocumentFetchUrl page u = resolveUrl u page ∧
    doGetFetchUrl page u = resolveUrl u page ∧
    doPostFetchUrl page u = resolveUrl u page ∧
    ((jsStartsWith u "/" = true ∨ jsStartsWith u "./" = true) →
      resolveUrl u page = specResolveUrl u page) ∧
    (jsStartsWith u "/" = false → jsStartsWith u "./" = false →
      resolveUrl u page = u) := by
  refine ⟨rfl, rfl, rfl, rfl, rfl, rfl, ?_, ?_⟩
  · intro h
    rcases h with h1 | h2
    · rw [resolveUrl, specResolveUrl, newURLHref,
        isAbsoluteUrl_false_of_startsWith_slash u h1, h1]
      simp
    · have habs := isAbsoluteUrl_false_of_startsWith_dotSlash u h2
      rw [resolveUrl, specResolveUrl, newURLHref, habs, h2]
      by_cases h1 : jsStartsWith u "/" = true
      · rw [h1]; simp
      · rw [Bool.not_eq_true] at h1; rw [h1]; simp
  · intro h1 h2
    rw [resolveUrl, h1, h2]
    simp

/-- C6 witness: a root-relative URL is resolved against the page origin
by every helper. -/
theorem resolveUrl_amended_witness :
    resolveUrl "/a/b" "https://example.com/dir/index.html" =
      specResolveUrl "/a/b" "https://example.com/dir/index.html" ∧
    doGetFetchUrl "https://example.com/dir/index.html" "/a/b" =
      resolveUrl "/a/b" "https://example.com/dir/index.html" :=
  ⟨(resolveUrl_amended "/a/b" "https://example.com/dir/index.html").2.2.2.2.2.2.1
      (Or.inl rfl),
   (resolveUrl_amended "/a/b" "https://example.com/dir/index.html").2.2.2.2.1⟩

/-- C5: per-candidate faults are recovered locally: an invalid
`urlPattern` makes `matchesTarget` return false rather than raise, a
probe that throws yields a null probe result and the engine advances to
the next candidate, and an extraction that throws yields an empty record
list for that candidate. -/
theorem per_candidate_fault_isolation :
    (∀ url pat, compileRegex pat = none → matchesTarget url pat = false) ∧
    (∀ (c : Candidate) (msg : String), c.detectBehavior = .error msg →
      executeDetectWeb c = none) ∧
    (∀ (c : Candidate) (msg : String) (rest : List Candidate),
      c.detectBehavior = .error msg →
      tryTranslators (c :: rest) = tryTranslators rest) ∧
    (∀ (c : Candidate) (msg : String), c.doWebBehavior = .error msg →
      executeDoWeb c = []) := by
  refine ⟨?_, ?_, ?_, ?_⟩
  · intro url pat h
    rw [matchesTarget, h]
  · intro c msg h
    rw [executeDetectWeb, h]
  · intro c msg rest h
    rw [tryTranslators, executeDetectWeb, h]
    rfl
  · intro c msg h
    rw [executeDoWeb, h]

/-- C5 witness: the unterminated class pattern compiles to an error and
matches nothing; a throwing probe is skipped; a throwing extraction
yields no records. -/
theorem per_candidate_fault_isolation_witness :
    matchesTarget "https://example.com/a" "[unterminated(" = false ∧
    executeDetectWeb candProbeThrows = none ∧
    tryTranslators [candProbeThrows, candWins] = tryTranslators [candWins] ∧
    executeDoWeb candDoWebThrows = [] :=
  ⟨per_candidate_fault_isolation.1 "https://example.com/a" "[unterminated(" rfl,
   per_candidate_fault_isolation.2.1 candProbeThrows "probe boom" rfl,
   per_candidate_fault_isolation.2.2.1 candProbeThrows "probe boom"
     [candWins] rfl,
   per_candidate_fault_isolation.2.2.2 candDoWebThrows "doWeb boom" rfl⟩

theorem tryTranslators_all_fail (l : List Candidate)
    (h : ∀ x ∈ l, candidateFails x) :
    tryTranslators l = .failure noExtractionError := by
  induction l with
  | nil => rfl
  | cons c rest ih =>
    have hc := h c (List.mem_cons_self c rest)
    have hrest := ih (fun x hx => h x (List.mem_cons_of_mem c hx))
    rw [tryTranslators]
    rcases hc with hdet | hdo
    · rw [hdet]
      simpa using hrest
    · cases hdetv : jsTruthyStr (executeDetectWeb c)
      · simpa using hrest
      · rw [hdo]
        simpa using hrest

theorem tryTranslators_first_success (pre : List Candidate) (c : Candidate)
    (post : List Candidate) (hpre : ∀ x ∈ pre, candidateFails x)
    (hdet : jsTruthyStr (executeDetectWeb c) = true)
    (hdo : executeDoWeb c ≠ []) :
    tryTranslators (pre ++ c :: post) = .success c.label (executeDoWeb c) := by
  induction pre with
  | nil =>
    rw [List.nil_append, tryTranslators, hdet]
    have : (executeDoWeb c).length > 0 := List.length_pos.mpr hdo
    simp [this]
  | cons x pre ih =>
    have hx := hpre x (List.mem_cons_self x pre)
    have hrest := ih (fun y hy => hpre y (List.mem_cons_of_mem x hy))
    rw [List.cons_append, tryTranslators]
    rcases hx with hxdet | hxdo
    · rw [hxdet]
      simpa using hrest
    · cases hxdetv : jsTruthyStr (executeDetectWeb x)
      · simpa using hrest
      · rw [hxdo]
        simpa using hrest

/-- C2: `extractMetadata` tries the resolved candidates in order; the
first candidate with a truthy probe whose extraction yields at least one
record wins with its label and records; an empty resolution yields the
distinct no-match failure; if every resolved candidate probes negative
or extracts nothing the result is the distinct no-extraction failure;
the two failure messages differ. -/
theorem extractMetadata_spec (url : String) (registry : List Candidate) :
    (findTranslatorsForUrl url registry = [] →
      extractMetadata url registry = .failure noMatchError) ∧
    (∀ pre c post, findTranslatorsForUrl url registry = pre ++ c :: post →
      (∀ x ∈ pre, candidateFails x) →
      jsTruthyStr (executeDetectWeb c) = true → executeDoWeb c ≠ [] →
      extractMetadata url registry = .success c.label (executeDoWeb c)) ∧
    ((∀ x ∈ findTranslatorsForUrl url registry, candidateFails x) →
      findTranslatorsForUrl url registry ≠ [] →
      extractMetadata url registry = .failure noExtractionError) ∧
    noMatchError ≠ noExtractionError := by
  refine ⟨?_, ?_, ?_, by decide⟩
  · intro h
    rw [extractMetadata]
    simp [h]
  · intro pre c post heq hpre hdet hdo
    rw [extractMetadata]
    have hne : (findTranslatorsForUrl url registry).length ≠ 0 := by
      rw [heq]
      simp
    simp only [hne, if_false]
    rw [heq]
    exact tryTranslators_first_success pre c post hpre hdet hdo
  · intro hall hne
    rw [extractMetadata]
    have hlen : (findTranslatorsForUrl url registry).length ≠ 0 :=
      fun h => hne (List.length_eq_zero.mp h)
    simp only [hlen, if_false]
    exact tryTranslators_all_fail _ hall

/-- C2 witness: with one non-matching, one negatively probing, and one
succeeding candidate, the succeeding candidate's label and records are
returned; with no matching candidate the distinct no-match error is
returned. -/
theorem extractMetadata_spec_witness :
    extractMetadata "https://example.com/a"
        [candNoMatch, candProbeNeg, candWins] =
      .success "C" [sampleItem] ∧
    extractMetadata "https://other.org/" [candNoMatch] =
      .failure noMatchError :=
  ⟨(extractMetadata_spec "https://example.com/a"
      [candNoMatch, candProbeNeg, candWins]).2.1 [candProbeNeg] candWins []
      rfl
      (fun x hx => by
        rcases List.mem_singleton.mp hx with h
        rw [h]
        exact Or.inl rfl)
      rfl (by simp [executeDoWeb, candWins]),
   (extractMetadata_spec "https://other.org/" [candNoMatch]).1 rfl⟩

theorem translatorLe_trans (a b c : Translator)
    (h1 : decide (b.metadata.priority ≤ a.metadata.priority) = true)
    (h2 : decide (c.metadata.priority ≤ b.metadata.priority) = true) :
    decide (c.metadata.priority ≤ a.metadata.priority) = true := by
  rw [decide_eq_true_eq] at *
  omega

theorem translatorLe_total (a b : Translator) :
    (decide (b.metadata.priority ≤ a.metadata.priority) ||
      decide (a.metadata.priority ≤ b.metadata.priority)) = true := by
  rcases Int.le_total b.metadata.priority a.metadata.priority with h | h
  · simp [h]
  · simp [h]

/-- C3: `findMatchingTranslators` returns exactly the catalog entries
whose target pattern matches the URL, sorted by priority in descending
order, and equal-priority entries keep their relative catalog order (the
sort is stable). -/
theorem findMatchingTranslators_spec (url : String)
    (catalog : List Translator) :
    (findMatchingTranslators url catalog).Perm
      (catalog.filter (fun t => matchesTarget url t.metadata.target)) ∧
    (findMatchingTranslators url catalog).Pairwise
      (fun a b => b.metadata.priority ≤ a.metadata.priority) ∧
    ∀ p : Int, (findMatchingTranslators url catalog).filter
        (fun t => t.metadata.priority == p) =
      (catalog.filter (fun t => matchesTarget url t.metadata.target)).filter
        (fun t => t.metadata.priority == p) := by
  refine ⟨List.mergeSort_perm _ _, ?_, ?_⟩
  · have h := List.sorted_mergeSort translatorLe_trans translatorLe_total
      (catalog.filter (fun t => matchesTarget url t.metadata.target))
    exact h.imp (fun hab => decide_eq_true_eq.mp hab)
  · intro p
    set F := catalog.filter (fun t => matchesTarget url t.metadata.target)
      with hF
    set S := F.filter (fun t => t.metadata.priority == p) with hS
    have hmemS : ∀ x ∈ S, x.metadata.priority = p := by
      intro x hx
      have := (List.mem_filter.mp hx).2
      exact beq_iff_eq.mp this
    have hpw : S.Pairwise
        (fun a b => decide (b.metadata.priority ≤ a.metadata.priority) = true) := by
      refine List.pairwise_of_forall_mem_list (fun a ha b hb => ?_)
      rw [decide_eq_true_eq, hmemS a ha, hmemS b hb]
    have hsub : S.Sublist F := List.filter_sublist F
    have hsl : S.Sublist (findMatchingTranslators url catalog) :=
      List.sublist_mergeSort translatorLe_trans translatorLe_total hpw hsub
    have hslf : S.Sublist ((findMatchingTranslators url catalog).filter
        (fun t => t.metadata.priority == p)) := by
      have hfix : S.filter (fun t => t.metadata.priority == p) = S := by
        rw [List.filter_eq_self]
        intro a ha
        rw [beq_iff_eq]
        exact hmemS a ha
      have h2 := List.Sublist.filter (fun t => t.metadata.priority == p) hsl
      rw [hfix] at h2
      exact h2
    have hlen : ((findMatchingTranslators url catalog).filter
        (fun t => t.metadata.priority == p)).length = S.length := by
      rw [hS]
      exact ((List.mergeSort_perm F _).filter _).length_eq
    exact (hslf.eq_of_length hlen.symm).symm


theorem dropWhile_append_of_forall (p : Char → Bool) (l1 l2 : List Char)
    (h : ∀ c ∈ l1, p c = true) :
    List.dropWhile p (l1 ++ l2) = List.dropWhile p l2 := by
  induction l1 with
  | nil => rfl
  | cons c l1 ih =>
    rw [List.cons_append, List.dropWhile_cons, if_pos (h c (by simp))]
    exact ih (fun x hx => h x (List.mem_cons_of_mem c hx))

theorem followedByWsNl_of_ws_nl (ws2 rest : List Char)
    (hws : ∀ c ∈ ws2, isJsWs c = true) (hnl : '\n' ∈ ws2) :
    followedByWsNl (ws2 ++ rest) = true := by
  induction ws2 with
  | nil => cases hnl
  | cons c ws ih =>
    rw [List.cons_append, followedByWsNl]
    by_cases hc : c = '\n'
    · simp [hc]
    · have hcw : isJsWs c = true := hws c (by simp)
      have hnl2 : '\n' ∈ ws := by
        rcases List.mem_cons.mp hnl with h | h
        · exact absurd h.symm hc
        · exact h
      have : (c == '\n') = false := by
        rw [beq_eq_false_iff_ne]
        exact hc
      rw [this]
      simp only [Bool.false_eq_true, if_false, hcw, if_true]
      exact ih (fun x hx => hws x (List.mem_cons_of_mem c hx)) hnl2

theorem findHeaderGroup_spec (body : List Char) (acc tail : List Char)
    (hnb : cbrace ∉ body) (htail : followedByWsNl tail = true) :
    findHeaderGroup acc (body ++ cbrace :: tail) =
      some (acc.reverse ++ (body ++ [cbrace]), tail) := by
  induction body generalizing acc with
  | nil =>
    rw [List.nil_append, findHeaderGroup]
    simp [htail]
  | cons b body ih =>
    have hb : b ≠ cbrace := fun h => hnb (h ▸ List.mem_cons_self b body)
    rw [List.cons_append, findHeaderGroup]
    have : (b == cbrace) = false := by
      rw [beq_eq_false_iff_ne]
      exact hb
    rw [this]
    simp only [Bool.false_and, Bool.false_eq_true, if_false]
    rw [ih (b :: acc) (fun h => hnb (List.mem_cons_of_mem b h))]
    simp

theorem extractHeader_ws (ws1 body ws2 rest : List Char)
    (h1 : ∀ c ∈ ws1, isJsWs c = true) (h2 : ∀ c ∈ ws2, isJsWs c = true)
    (hnl : '\n' ∈ ws2) (hnb : cbrace ∉ body) :
    extractHeader (ws1 ++ (obrace :: body ++ [cbrace]) ++ ws2 ++ rest) =
      some (obrace :: body ++ [cbrace], ws2 ++ rest) := by
  rw [extractHeader]
  have hdrop : List.dropWhile isJsWs
      (ws1 ++ (obrace :: body ++ [cbrace]) ++ ws2 ++ rest) =
      obrace :: (body ++ [cbrace] ++ ws2 ++ rest) := by
    rw [List.append_assoc, List.append_assoc,
      dropWhile_append_of_forall isJsWs ws1 _ h1]
    rw [List.cons_append, List.cons_append, List.dropWhile_cons]
    have : isJsWs obrace = false := rfl
    rw [this]
    simp
  rw [hdrop]
  simp only [beq_self_eq_true, if_true]
  have hgrp : findHeaderGroup [obrace] (body ++ [cbrace] ++ ws2 ++ rest) =
      some (obrace :: body ++ [cbrace], ws2 ++ rest) := by
    have hre : body ++ [cbrace] ++ ws2 ++ rest =
        body ++ cbrace :: (ws2 ++ rest) := by
      simp
    rw [hre, findHeaderGroup_spec body [obrace] (ws2 ++ rest) hnb
      (followedByWsNl_of_ws_nl ws2 rest h2 hnl)]
    simp
  rw [hgrp]

/-- C4 counterexample: a header missing the required `priority` key still
parses successfully (the claim requires `none`): the code validates only
`translatorID`, `label`, `target` and `translatorType`. -/
theorem parseTranslatorMetadata_counterexample :
    parseTranslatorMetadata hdrNoPriority = some hdrNoPriorityVal ∧
    jlookup hdrNoPriorityVal "priority" = none :=
  ⟨rfl, rfl⟩

/-- C4 (amended): `parseTranslatorMetadata` returns `none` (never
raises) when the header group is absent, the header JSON is malformed,
or any of `translatorID`, `label`, `target`, `translatorType` is missing
or falsy — but a missing `priority` does not fail the parse; for a
well-formed header it succeeds despite leading whitespace and trailing
whitespace (containing the newline the header regex requires) around the
header block. -/
theorem parseTranslatorMetadata_amended :
    (∀ code : String, extractHeader code.data = none →
      parseTranslatorMetadata code = none) ∧
    (∀ (code : String) (grp rest : List Char),
      extractHeader code.data = some (grp, rest) → jsonParse grp = none →
      parseTranslatorMetadata code = none) ∧
    (∀ (code : String) (v : Jval), parseTranslatorMetadata code = some v →
      jsTruthyJval (jlookup v "translatorID") = true ∧
      jsTruthyJval (jlookup v "label") = true ∧
      jsTruthyJval (jlookup v "target") = true ∧
      (jlookup v "translatorType").isNone = false) ∧
    (∀ ws1 body ws2 rest : List Char,
      (∀ c ∈ ws1, isJsWs c = true) → (∀ c ∈ ws2, isJsWs c = true) →
      '\n' ∈ ws2 → cbrace ∉ body →
      parseTranslatorMetadata
          ⟨ws1 ++ (obrace :: body ++ [cbrace]) ++ ws2 ++ rest⟩ =
        validateMetadata (jsonParse (obrace :: body ++ [cbrace]))) := by
  refine ⟨?_, ?_, ?_, ?_⟩
  · intro code h
    rw [parseTranslatorMetadata, h]
  · intro code grp rest h hj
    rw [parseTranslatorMetadata, h]
    show validateMetadata (jsonParse grp) = none
    rw [hj]
    rfl
  · intro code v h
    rw [parseTranslatorMetadata] at h
    split at h
    · cases h
    · rename_i grp rest heq
      rw [validateMetadata.eq_def] at h
      split at h
      · cases h
      · rename_i m hm
        split at h
        · rename_i hcond
          cases h
          simp only [Bool.and_eq_true, Bool.not_eq_true'] at hcond
          exact ⟨hcond.1.1.1, hcond.1.1.2, hcond.1.2, hcond.2⟩
        · cases h
  · intro ws1 body ws2 rest h1 h2 hnl hnb
    rw [parseTranslatorMetadata]
    have hdata : (String.mk (ws1 ++ (obrace :: body ++ [cbrace]) ++ ws2 ++
        rest)).data = ws1 ++ (obrace :: body ++ [cbrace]) ++ ws2 ++ rest := rfl
    rw [hdata, extractHeader_ws ws1 body ws2 rest h1 h2 hnl hnb]

/-- C4 witness: a garbled input parses to `none`; a well-formed header
with all five keys, surrounded by whitespace, parses successfully. -/
theorem parseTranslatorMetadata_amended_witness :
    parseTranslatorMetadata "xyz" = none ∧
    parseTranslatorMetadata
        ⟨[' '] ++ (obrace :: ("\"translatorID\":\"a\",\"label\":\"b\",\"target\":\"c\",\"priority\":1,\"translatorType\":4").data ++ [cbrace]) ++ ['\n'] ++ ("function detectWeb() ").data⟩ =
      some (.jobj [("translatorID", .jstr "a"), ("label", .jstr "b"), ("target", .jstr "c"), ("priority", .jnum 1), ("translatorType", .jnum 4)]) := by
  refine ⟨parseTranslatorMetadata_amended.1 "xyz" rfl, ?_⟩
  exact (parseTranslatorMetadata_amended.2.2.2 [' ']
    ("\"translatorID\":\"a\",\"label\":\"b\",\"target\":\"c\",\"priority\":1,\"translatorType\":4").data
    ['\n'] ("function detectWeb() ").data (by decide) (by decide) (by decide)
    (by decide)).trans rfl

theorem scanChildren_eq_getD (l : List NTree) (st : PathStep) (mi : Nat)
    (cur : NTree) (h : mi ≤ st.index) :
    scanChildren l st mi cur =
      (l.filter (matchesStep st)).getD (st.index - mi) cur := by
  induction l generalizing mi with
  | nil => simp [scanChildren]
  | cons c rest ih =>
    rw [scanChildren]
    by_cases hm : matchesStep st c = true
    · rw [if_pos hm, List.filter_cons_of_pos hm]
      by_cases hmi : (mi == st.index) = true
      · rw [if_pos hmi]
        have hz : st.index - mi = 0 := by
          have := beq_iff_eq.mp hmi
          omega
        rw [hz, List.getD_cons_zero]
      · rw [if_neg (by simpa using hmi)]
        have hne : mi ≠ st.index := by simpa using hmi
        have hlt : mi < st.index := Nat.lt_of_le_of_ne h hne
        rw [ih (mi + 1) hlt]
        have hsucc : st.index - mi = (st.index - (mi + 1)) + 1 := by omega
        rw [hsucc, List.getD_cons_succ]
    · rw [if_neg (by simpa using hm), List.filter_cons_of_neg (by simpa using hm)]
      exact ih mi h

theorem scanChildren_self_or_mem (l : List NTree) (st : PathStep) (mi : Nat)
    (cur : NTree) :
    scanChildren l st mi cur = cur ∨ scanChildren l st mi cur ∈ l := by
  induction l generalizing mi with
  | nil => left; rfl
  | cons c rest ih =>
    rw [scanChildren]
    by_cases hm : matchesStep st c = true
    · rw [if_pos hm]
      by_cases hmi : (mi == st.index) = true
      · rw [if_pos hmi]
        right
        exact List.mem_cons_self c rest
      · rw [if_neg (by simpa using hmi)]
        rcases ih (mi + 1) with h | h
        · left; exact h
        · right; exact List.mem_cons_of_mem c h
    · rw [if_neg (by simpa using hm)]
      rcases ih mi with h | h
      · left; exact h
      · right; exact List.mem_cons_of_mem c h

theorem walkPath_isSome (path : List PathStep) :
    ∀ root : NTree, isElemNode root = true →
      (walkPath root path).isSome = true := by
  induction path with
  | nil => intro root _; rfl
  | cons st rest ih =>
    intro root h
    cases root with
    | textN s => cases h
    | elem tag cs =>
      have hsd : stepDown (NTree.elem tag cs) st =
          some (scanChildren (elemChildren (NTree.elem tag cs)) st 0
            (NTree.elem tag cs)) := rfl
      rw [walkPath, hsd]
      apply ih
      rcases scanChildren_self_or_mem (elemChildren (NTree.elem tag cs)) st 0
          (NTree.elem tag cs) with h2 | h2
      · rw [h2]; rfl
      · rw [elemChildren] at h2
        exact (List.mem_filter.mp h2).2

theorem pathStepsFrom_isSome (pos : List Nat) :
    ∀ root : NTree, (nodeAt root pos).isSome = true →
      (pathStepsFrom root pos).isSome = true := by
  induction pos with
  | nil => intro root _; rfl
  | cons i rest ih =>
    intro root h
    rw [nodeAt] at h
    rw [pathStepsFrom]
    cases hc : (childNodes root)[i]? with
    | none => rw [hc] at h; simp at h
    | some c =>
      rw [hc] at h
      simp only [] at h
      have h2 := ih c h
      simp only []
      cases hps : pathStepsFrom c rest with
      | none => rw [hps] at h2; simp at h2
      | some steps => rfl

theorem length_filterMap_of_isSome {α β : Type} (l : List α)
    (f : α → Option β) (h : ∀ x ∈ l, (f x).isSome = true) :
    (l.filterMap f).length = l.length := by
  induction l with
  | nil => rfl
  | cons a l ih =>
    rw [List.filterMap_cons]
    cases hf : f a with
    | none =>
      have := h a (List.mem_cons_self a l)
      rw [hf] at this
      simp at this
    | some b =>
      simp [ih (fun x hx => h x (List.mem_cons_of_mem a hx))]

/-- C1 (amended): in the primary-tree re-walk, a step at which no element
child carries the step's tag name at the step's recorded index keeps the
current node and continues with the next step — the matched node is not
dropped and no exception is raised; on an element-rooted primary tree
every matched node therefore correlates to some node (possibly a
deeper-resolved ancestor), so the projected result has exactly one entry
per matched node and the other matched nodes of the query are unaffected. -/
theorem correlation_no_drop :
    (∀ (cur : NTree) (st : PathStep), isElemNode cur = true →
      ((elemChildren cur).filter (matchesStep st)).length ≤ st.index →
      stepDown cur st = some cur) ∧
    (∀ (root : NTree) (path : List PathStep), isElemNode root = true →
      (walkPath root path).isSome = true) ∧
    (∀ (prim sec : NTree) (tag : String), isElemNode prim = true →
      (evaluateTagQuery prim sec tag).length = (selectTag sec tag).length) := by
  refine ⟨?_, fun root path h => walkPath_isSome path root h, ?_⟩
  · intro cur st hel hlen
    cases cur with
    | textN s => cases hel
    | elem tag cs =>
      rw [stepDown]
      rw [scanChildren_eq_getD _ _ _ _ (Nat.zero_le _), Nat.sub_zero,
        List.getD_eq_default _ _ hlen]
  · intro prim sec tag hp
    rw [evaluateTagQuery]
    apply length_filterMap_of_isSome
    intro pos hpos
    rw [selectTag] at hpos
    have hpred := (List.mem_filter.mp hpos).2
    have hsome : (nodeAt sec pos).isSome = true := by
      cases hn : nodeAt sec pos with
      | none => rw [hn] at hpred; simp at hpred
      | some n => rfl
    rw [findMatchingLinkedomNode]
    cases hgp : getNodePath sec pos with
    | none =>
      exfalso
      rw [getNodePath] at hgp
      have h2 := pathStepsFrom_isSome pos sec hsome
      cases hps : pathStepsFrom sec pos with
      | none => rw [hps] at h2; simp at h2
      | some steps => rw [hps] at hgp; cases hgp
    | some path =>
      show (walkPath prim path).isSome = true
      exact walkPath_isSome path prim hp

/-- C1 counterexample: the second matched `p` has no positional
equivalent in the primary tree, yet it is not dropped from the projected
result — the walk resolves it to the deepest reached ancestor (the body
element), so the result has two entries instead of the one the claim
predicts. -/
theorem correlation_drop_counterexample :
    evaluateTagQuery primDiverge secDiverge "p" =
      [pchild "a", NTree.elem "body" [pchild "a"]] ∧
    evaluateTagQuery primDiverge secDiverge "p" ≠ [pchild "a"] := by
  constructor
  · rfl
  · rw [show evaluateTagQuery primDiverge secDiverge "p" =
      [pchild "a", NTree.elem "body" [pchild "a"]] from rfl]
    simp

/-- C1 witness: a failed step keeps the current node; the walk of the
divergent path still yields a node; the projection keeps one entry per
matched node. -/
theorem correlation_no_drop_witness :
    stepDown (famDoc ["a"]) ⟨"q", 0⟩ = some (famDoc ["a"]) ∧
    (walkPath primDiverge [⟨"html", 0⟩, ⟨"body", 0⟩, ⟨"p", 1⟩]).isSome =
      true ∧
    (evaluateTagQuery primDiverge secDiverge "p").length =
      (selectTag secDiverge "p").length :=
  ⟨correlation_no_drop.1 (famDoc ["a"]) ⟨"q", 0⟩ rfl (by decide),
   correlation_no_drop.2.1 primDiverge [⟨"html", 0⟩, ⟨"body", 0⟩, ⟨"p", 1⟩]
     rfl,
   correlation_no_drop.2.2 primDiverge secDiverge "p" rfl⟩

theorem allPositionsAux_map_pchild (ss : List String) (k : Nat) :
    allPositionsAux k (ss.map pchild) =
      ((List.range' k ss.length).map (fun i => [[i], [i, 0]])).flatten := by
  induction ss generalizing k with
  | nil => rfl
  | cons s rest ih =>
    rw [List.map_cons, allPositionsAux, ih (k + 1), List.length_cons,
      List.range'_succ, List.map_cons, List.flatten_cons]
    rfl

theorem sameTagIndex_map_pchild (ss : List String) (i : Nat)
    (hi : i ≤ ss.length) : sameTagIndex (ss.map pchild) i "p" = i := by
  rw [sameTagIndex, ← List.map_take]
  have hall : List.filter (fun s => nodeName s == "p")
      ((ss.take i).map pchild) = (ss.take i).map pchild := by
    rw [List.filter_eq_self]
    intro a ha
    rcases List.mem_map.mp ha with ⟨s, _, rfl⟩
    rfl
  rw [hall, List.length_map, List.length_take]
  exact min_eq_left hi

theorem elemChildren_famDoc (ss : List String) :
    elemChildren (famDoc ss) = ss.map pchild := by
  rw [famDoc, elemChildren]
  rw [show childNodes (NTree.elem "body" (ss.map pchild)) = ss.map pchild
    from rfl]
  rw [List.filter_eq_self]
  intro a ha
  rcases List.mem_map.mp ha with ⟨s, _, rfl⟩
  rfl

theorem walkPath_famDoc (ss : List String) (i : Nat) (hi : i < ss.length) :
    walkPath (famDoc ss) [⟨"body", 0⟩, ⟨"p", i⟩] = some (pchild ss[i]) := by
  have hsd1 : stepDown (famDoc ss) ⟨"body", 0⟩ = some (famDoc ss) := by
    rw [show stepDown (famDoc ss) ⟨"body", 0⟩ =
        some (scanChildren (elemChildren (famDoc ss)) ⟨"body", 0⟩ 0
          (famDoc ss)) from rfl]
    rw [elemChildren_famDoc, scanChildren_eq_getD _ _ _ _ (Nat.zero_le _)]
    have hnil : List.filter (matchesStep ⟨"body", 0⟩) (ss.map pchild) = [] := by
      rw [List.filter_eq_nil_iff]
      intro a ha
      rcases List.mem_map.mp ha with ⟨s, _, rfl⟩
      rw [show matchesStep ⟨"body", 0⟩ (pchild s) = false from rfl]
      simp
    rw [hnil]
    rfl
  have hsd2 : stepDown (famDoc ss) ⟨"p", i⟩ = some (pchild ss[i]) := by
    rw [show stepDown (famDoc ss) ⟨"p", i⟩ =
        some (scanChildren (elemChildren (famDoc ss)) ⟨"p", i⟩ 0
          (famDoc ss)) from rfl]
    rw [elemChildren_famDoc, scanChildren_eq_getD _ _ _ _ (Nat.zero_le _)]
    have hall : List.filter (matchesStep ⟨"p", i⟩) (ss.map pchild) =
        ss.map pchild := by
      rw [List.filter_eq_self]
      intro a ha
      rcases List.mem_map.mp ha with ⟨s, _, rfl⟩
      rfl
    rw [hall, Nat.sub_zero]
    rw [List.getD_eq_getElem _ _ (by rw [List.length_map]; exact hi)]
    rw [List.getElem_map]
  rw [walkPath, hsd1]
  simp only []
  rw [walkPath, hsd2]
  simp only []
  rw [walkPath]

theorem pathStepsFrom_famDoc (ss : List String) (i : Nat)
    (hi : i < ss.length) :
    pathStepsFrom (famDoc ss) [i] = some [⟨"p", i⟩] := by
  rw [pathStepsFrom]
  rw [show childNodes (famDoc ss) = ss.map pchild from by rw [famDoc]; rfl]
  rw [List.getElem?_map, List.getElem?_eq_getElem hi]
  show some (⟨nodeName (pchild ss[i]),
      sameTagIndex (ss.map pchild) i (nodeName (pchild ss[i]))⟩ ::
      ([] : List PathStep)) = some [⟨"p", i⟩]
  rw [show nodeName (pchild ss[i]) = "p" from rfl]
  rw [sameTagIndex_map_pchild ss i (Nat.le_of_lt hi)]

theorem correlate_famDoc (ss : List String) (i : Nat) (hi : i < ss.length) :
    findMatchingLinkedomNode (famDoc ss) (famDoc ss) [i] =
      some (pchild ss[i]) := by
  have hpath : getNodePath (famDoc ss) [i] = some [⟨"body", 0⟩, ⟨"p", i⟩] := by
    rw [getNodePath, pathStepsFrom_famDoc ss i hi]
    rfl
  rw [findMatchingLinkedomNode, hpath]
  show walkPath (famDoc ss) [⟨"body", 0⟩, ⟨"p", i⟩] = some (pchild ss[i])
  exact walkPath_famDoc ss i hi

theorem famDoc_pred_single (ss : List String) (k : Nat) (hk : k < ss.length) :
    (match nodeAt (famDoc ss) [k] with
      | some (.elem t _) => t == "p"
      | _ => false) = true := by
  have hna : nodeAt (famDoc ss) [k] = some (pchild ss[k]) := by
    rw [nodeAt]
    rw [show childNodes (famDoc ss) = ss.map pchild from by rw [famDoc]; rfl]
    rw [List.getElem?_map, List.getElem?_eq_getElem hk]
    rfl
  rw [hna]
  rfl

theorem famDoc_pred_pair (ss : List String) (k : Nat) :
    (match nodeAt (famDoc ss) [k, 0] with
      | some (.elem t _) => t == "p"
      | _ => false) = false := by
  rw [nodeAt]
  rw [show childNodes (famDoc ss) = ss.map pchild from by rw [famDoc]; rfl]
  rw [List.getElem?_map]
  cases hk : ss[k]? with
  | none => rfl
  | some s => rfl

theorem filter_pos_aux (ss : List String) (n : Nat) :
    ∀ k, k + n = ss.length →
      List.filter (fun pos =>
          match nodeAt (famDoc ss) pos with
          | some (.elem t _) => t == "p"
          | _ => false)
        (((List.range' k n).map (fun i => [[i], [i, 0]])).flatten) =
      (List.range' k n).map (fun i => [i]) := by
  induction n with
  | zero => intro k _; rfl
  | succ n ih =>
    intro k hk
    rw [List.range'_succ, List.map_cons, List.flatten_cons, List.filter_append,
      List.map_cons, ih (k + 1) (by omega)]
    rw [List.filter_cons, List.filter_cons, List.filter_nil]
    rw [famDoc_pred_single ss k (by omega), famDoc_pred_pair ss k]
    simp

theorem selectTag_famDoc (ss : List String) :
    selectTag (famDoc ss) "p" = (List.range' 0 ss.length).map (fun i => [i]) := by
  rw [selectTag]
  rw [show allPositions (famDoc ss) = [] :: allPositionsAux 0 (ss.map pchild)
    from by rw [famDoc]; rfl]
  rw [List.filter_cons]
  rw [show (match nodeAt (famDoc ss) ([] : List Nat) with
      | some (.elem t _) => t == "p"
      | _ => false) = false from rfl]
  simp only [Bool.false_eq_true, if_false]
  rw [allPositionsAux_map_pchild ss 0, filter_pos_aux ss ss.length 0 (by omega)]

/-- C7: projecting the `//tag` query through the correlation bridge on a
document with `N` same-tag siblings at one nesting level returns exactly
those `N` nodes, correlated in document order; and resolving a
`StructuralPath` on a fixed document is deterministic — the same path on
the same document always yields the same node. -/
theorem siblings_query_spec (ss : List String) :
    evaluateTagQuery (famDoc ss) (famDoc ss) "p" = ss.map pchild ∧
    (evaluateTagQuery (famDoc ss) (famDoc ss) "p").length = ss.length ∧
    (∀ (prim : NTree) (path : List PathStep) (n1 n2 : NTree),
      walkPath prim path = some n1 → walkPath prim path = some n2 →
      n1 = n2) := by
  have hmain : evaluateTagQuery (famDoc ss) (famDoc ss) "p" = ss.map pchild := by
    rw [evaluateTagQuery, selectTag_famDoc, List.filterMap_map]
    rw [filterMap_eq_map_of_some _ _
      (fun i => pchild (ss.getD i "")) ?all]
    case all =>
      intro i hi
      have hilt : i < ss.length := by
        have h2 := List.mem_range'_1.mp hi
        omega
      show findMatchingLinkedomNode (famDoc ss) (famDoc ss) [i] =
        some (pchild (ss.getD i ""))
      rw [correlate_famDoc ss i hilt, List.getD_eq_getElem _ _ hilt]
    · apply List.ext_getElem
      · simp
      · intro j h1 h2
        have hj : j < ss.length := by
          simpa using h2
        simp only [List.getElem_map, List.getElem_range', Nat.zero_add,
          Nat.one_mul]
        rw [List.getD_eq_getElem _ _ hj]
  refine ⟨hmain, by rw [hmain, List.length_map], ?_⟩
  intro prim path n1 n2 h1 h2
  rw [h1] at h2
  exact Option.some.inj h2

/-- C7 witness: a two-sibling document projects to exactly those two
nodes in order, and a concrete path resolution is deterministic. -/
theorem siblings_query_spec_witness :
    evaluateTagQuery (famDoc ["a", "b"]) (famDoc ["a", "b"]) "p" =
      (["a", "b"] : List String).map pchild ∧
    famDoc ["a"] = famDoc ["a"] :=
  ⟨(siblings_query_spec ["a", "b"]).1,
   (siblings_query_spec ["a", "b"]).2.2 (famDoc ["a"]) [] (famDoc ["a"])
     (famDoc ["a"]) rfl rfl⟩
